import Mathlib

/-!
Verification of the streaming/thinking state machine of the chat front-end.

The definitions below are shallow embeddings of the TypeScript source:
  * `src/providers/ChatProvider.tsx` — thinking-step transitions, the
    streaming-state reducer (`streaming.append` etc.) and `cancel`;
  * the two stream-ingestion engines (`useStreamSSE` variants): the
    line-buffering one defined next to `useThinkingState`, and the one in
    `src/hooks/useStreamSSE.ts` that splits each network read on its own;
  * the two typewriter loops (`useTypingAnimation`): the
    requestAnimationFrame-based reconciliation step and the interval-based
    variant that restarts on every text change.

Strings coming off the wire are modelled as `List Char`; record fields kept
as `String` mirror the TypeScript object shapes. JavaScript `undefined` for
optional fields is `Option.none`; JavaScript truthiness on an optional
string (`x || null`) is `jsOrNull`.
-/

/-- Wire chunk shape from `src/lib/chatEvents.ts` (`StreamChunk`):
`\x7b id, delta, done?, error? \x7d`. `done` absent is modelled as `false`
(only its truthiness is ever read). -/
structure StreamChunk where
  id : String
  delta : String
  done : Bool
  error : Option String
deriving DecidableEq

/-- Aggregate streaming state from `ChatProvider.tsx`. -/
structure StreamingState where
  messageId : Option String
  content : String
  isStreaming : Bool
  error : Option String
deriving DecidableEq

/-- JavaScript `e || null` on an optional string: an absent or empty
(falsy) string is `null`. -/
def jsOrNull (e : Option String) : Option String :=
  match e with
  | some s => if s = "" then none else some s
  | none => none

/-- `streaming.append` of `ChatProvider.tsx` (lines 213-220):
`content += delta; isStreaming = !chunk.done; error = chunk.error || null`.
The spread `...prev` keeps `messageId`. -/
def streamingAppend (prev : StreamingState) (chunk : StreamChunk) : StreamingState :=
  { prev with
    content := prev.content ++ chunk.delta
    isStreaming := !chunk.done
    error := jsOrNull chunk.error }

/-- `streaming.start` of `ChatProvider.tsx`. -/
def streamingStart (messageId : String) : StreamingState :=
  { messageId := some messageId, content := "", isStreaming := true, error := none }

/-- Folding a sequence of honored `append` calls. -/
def applyChunks (s : StreamingState) (cs : List StreamChunk) : StreamingState :=
  cs.foldl streamingAppend s

/-- Concatenation of the deltas of a chunk sequence. -/
def deltasJoin (cs : List StreamChunk) : String :=
  cs.foldl (fun acc c => acc ++ c.delta) ""

/-- Thinking-step identifiers (`ThoughtStepId` in `chatEvents.ts`). -/
inductive ThoughtStepId
  | understand | plan | retrieve | tool | compose | finalize
deriving DecidableEq

/-- Step status (`ThoughtStepStatus` in `chatEvents.ts`). -/
inductive ThoughtStepStatus
  | pending | active | done | error
deriving DecidableEq

/-- One thought step (`ThoughtStep` in `chatEvents.ts`). -/
structure ThoughtStep where
  id : ThoughtStepId
  label : String
  status : ThoughtStepStatus
  startedAt : Option Nat
  endedAt : Option Nat
  toolName : Option String
  note : Option String
deriving DecidableEq

/-- Aggregate thinking state (`ChatThinkingState` in `chatEvents.ts`). -/
structure ChatThinkingState where
  visible : Bool
  canCancel : Bool
  steps : List ThoughtStep
  activeStep : Option ThoughtStepId
deriving DecidableEq

/-- `completeStep` of `ChatProvider.tsx` (lines 127-143): marks the matching
steps done with `endedAt = now` and clears `activeStep` when it matches. -/
def completeStep (now : Nat) (id : ThoughtStepId) (prev : ChatThinkingState) :
    ChatThinkingState :=
  { prev with
    steps := prev.steps.map fun step =>
      if step.id = id then { step with status := .done, endedAt := some now } else step
    activeStep := if prev.activeStep = some id then none else prev.activeStep }

/-- `failStep` of `ChatProvider.tsx` (lines 145-161): marks the matching
steps as error, sets `endedAt` and overwrites `note`. -/
def failStep (now : Nat) (id : ThoughtStepId) (note : Option String)
    (prev : ChatThinkingState) : ChatThinkingState :=
  { prev with
    steps := prev.steps.map fun step =>
      if step.id = id then
        { step with status := .error, endedAt := some now, note := note }
      else step
    activeStep := if prev.activeStep = some id then none else prev.activeStep }

/-- The empty thinking state `ChatProvider.tsx` resets to. -/
def initialThinking : ChatThinkingState :=
  { visible := false, canCancel := false, steps := [], activeStep := none }

/-- The empty streaming state `ChatProvider.tsx` resets to. -/
def initialStreaming : StreamingState :=
  { messageId := none, content := "", isStreaming := false, error := none }

/-- `cancel` of `ChatProvider.tsx` (lines 179-199): fires `events.onCancel`
when supplied (returned as an invocation count), then resets both states to
their initial values. -/
def cancelChat (hasOnCancel : Bool) (thinking : ChatThinkingState)
    (streaming : StreamingState) : Nat × ChatThinkingState × StreamingState :=
  ((if hasOnCancel then 1 else 0), initialThinking, initialStreaming)

-- Helper: mapping a function that fixes every element of a list is the
-- identity on that list.
lemma map_eq_self_of_fixed {α : Type} (f : α → α) :
    ∀ (l : List α), (∀ a ∈ l, f a = a) → l.map f = l := by
  intro l
  induction l with
  | nil => intro _; rfl
  | cons x xs ih =>
    intro h
    simp only [List.map_cons]
    rw [h x (by simp), ih (fun a ha => h a (by simp [ha]))]

-- Helper: a foldl over string concatenation pulls the accumulator out front.
lemma foldl_delta_acc (cs : List StreamChunk) :
    ∀ (a : String), cs.foldl (fun acc c => acc ++ c.delta) a = a ++ deltasJoin cs := by
  induction cs with
  | nil =>
    intro a
    simp [deltasJoin]
  | cons c cs ih =>
    intro a
    simp only [List.foldl_cons, deltasJoin]
    rw [ih (a ++ c.delta), ih ("" ++ c.delta)]
    have h0 : ("" : String) ++ c.delta = c.delta := by
      simp
    rw [h0, String.append_assoc]

/-- Claim C2: every honored `appendChunk` call extends `content` purely by
concatenating the chunk's delta at the end; over any sequence of calls the
final content is the initial content followed by the joined deltas, so
content never shrinks and earlier characters are never mutated. -/
theorem streaming_content_append_only (s : StreamingState) (cs : List StreamChunk) :
    (applyChunks s cs).content = s.content ++ deltasJoin cs ∧
    ∀ c : StreamChunk, (streamingAppend s c).content = s.content ++ c.delta := by
  constructor
  · induction cs generalizing s with
    | nil => simp [applyChunks, deltasJoin]
    | cons c cs ih =>
      simp only [applyChunks, List.foldl_cons, deltasJoin]
      rw [show (List.foldl streamingAppend (streamingAppend s c) cs) =
            applyChunks (streamingAppend s c) cs from rfl]
      rw [ih (streamingAppend s c)]
      have h1 : (streamingAppend s c).content = s.content ++ c.delta := rfl
      rw [h1, foldl_delta_acc cs ("" ++ c.delta)]
      have h0 : ("" : String) ++ c.delta = c.delta := by simp
      rw [h0, String.append_assoc]
  · intro c
    rfl

/-- Claim C1 counterexample: with a streaming session tracked for message id
`A`, a chunk whose id is `B` changes the `StreamingState` (its content is
extended and `isStreaming` is updated): the stale chunk is not ignored. -/
theorem stale_chunk_mutates_state :
    streamingAppend
      { messageId := some "A", content := "x", isStreaming := true, error := none }
      { id := "B", delta := "y", done := false, error := none } ≠
    { messageId := some "A", content := "x", isStreaming := true, error := none } := by
  decide

/-- Claim C1 (amended): `appendChunk` has no stale-stream guard; the chunk's
id is never inspected, so the resulting state is the same for any id, the
chunk's delta is appended even when its id differs from the tracked
`messageId`, and only `messageId` itself is left unchanged. -/
theorem append_ignores_chunk_id (s : StreamingState) (c : StreamChunk) (b : String) :
    (streamingAppend s c).messageId = s.messageId ∧
    streamingAppend s { c with id := b } = streamingAppend s c ∧
    (streamingAppend s c).content = s.content ++ c.delta := by
  exact ⟨rfl, rfl, rfl⟩

/-- Claim C3 counterexample: a previously recorded error `"boom"` is cleared
(set to `null`) by a subsequent error-free chunk, instead of being kept. -/
theorem errorfree_chunk_clears_error :
    (streamingAppend
      { messageId := some "A", content := "x", isStreaming := true, error := some "boom" }
      { id := "A", delta := "", done := false, error := none }).error ≠ some "boom" := by
  decide

/-- Claim C3 (amended): after an honored `appendChunk`, `isStreaming` is the
negation of the chunk's done flag, and `error` is computed from the chunk
alone (`chunk.error || null`): it does not depend on the pre-existing error,
and an error-free chunk resets it to `null`. -/
theorem append_sets_streaming_and_error (s t : StreamingState) (c : StreamChunk) :
    (streamingAppend s c).isStreaming = !c.done ∧
    (streamingAppend s c).error = (streamingAppend t c).error ∧
    (streamingAppend s { c with error := none }).error = none := by
  exact ⟨rfl, rfl, rfl⟩

/-- Claim C8: `cancel()` fires the supplied onCancel callback exactly once
and resets the thinking state and the streaming state to their empty initial
values, whatever had accumulated before the call. -/
theorem cancel_resets_everything (thinking : ChatThinkingState) (streaming : StreamingState) :
    (cancelChat true thinking streaming).1 = 1 ∧
    (cancelChat true thinking streaming).2.1 =
      { visible := false, canCancel := false, steps := [], activeStep := none } ∧
    (cancelChat true thinking streaming).2.2 =
      { messageId := none, content := "", isStreaming := false, error := none } := by
  exact ⟨rfl, rfl, rfl⟩

/-- Claim C10: when no step in the list matches the given id, `completeStep`
and `failStep` leave the steps list unchanged, while `activeStep` is still
cleared exactly when it equals that id. -/
theorem unmatched_step_transitions_frame (now : Nat) (id : ThoughtStepId)
    (note : Option String) (s : ChatThinkingState)
    (h : ∀ st ∈ s.steps, st.id ≠ id) :
    ((completeStep now id s).steps = s.steps ∧
      (completeStep now id s).activeStep =
        (if s.activeStep = some id then none else s.activeStep)) ∧
    ((failStep now id note s).steps = s.steps ∧
      (failStep now id note s).activeStep =
        (if s.activeStep = some id then none else s.activeStep)) := by
  refine ⟨⟨?_, rfl⟩, ⟨?_, rfl⟩⟩
  · apply map_eq_self_of_fixed
    intro a ha
    simp [h a ha]
  · apply map_eq_self_of_fixed
    intro a ha
    simp [h a ha]

/-- A concrete step list holding only a `plan` step, used as a witness state. -/
def planOnlySteps : List ThoughtStep :=
  [{ id := .plan, label := "Planning", status := .active,
     startedAt := some 1, endedAt := none, toolName := none, note := none }]

/-- A concrete thinking state whose `activeStep` has no matching list entry. -/
def c10State : ChatThinkingState :=
  { visible := true, canCancel := true, steps := planOnlySteps,
    activeStep := some .understand }

/-- Claim C10 witness: in `c10State` the only listed step is `plan` while
`activeStep` is `understand`; completing `understand` leaves the step list
untouched and clears `activeStep`. -/
theorem unmatched_step_transitions_frame_witness :
    (∀ st ∈ c10State.steps, st.id ≠ ThoughtStepId.understand) ∧
    (completeStep 5 .understand c10State).steps = planOnlySteps ∧
    (completeStep 5 .understand c10State).activeStep = none := by
  refine ⟨by decide, ?_, ?_⟩
  · exact ((unmatched_step_transitions_frame 5 .understand (some "n") c10State
      (by decide)).1).1
  · have h := ((unmatched_step_transitions_frame 5 .understand (some "n") c10State
      (by decide)).1).2
    simpa [c10State] using h

/-!
Stream ingestion engines. Two variants exist in the source:

  * the buffered engine (the `useStreamSSE` defined in the same file as
    `useThinkingState`): `buffer += decode(value)`, `lines = buffer.split('\n')`,
    `buffer = lines.pop() || ''`, then each complete line is trimmed,
    blank lines are skipped, a `data: ` marker is stripped, the `[DONE]`
    sentinel is skipped, and the remaining payload is handed to the JSON
    parser; after the read loop ends the completion callback fires once;

  * the legacy engine in `src/hooks/useStreamSSE.ts`: each read is split on
    newlines on its own with no carry-over buffer, only lines starting with
    `data: ` are considered, the sentinel returns from the whole stream
    (firing completion), a parsed chunk with a done flag also fires
    completion, and nothing fires at bare reader end.

The wire text is a `List Char`; the JSON parser is an external collaborator
and is a parameter `parse`.
-/

/-- Prepend a character to the first part of a partition (helper for
`splitNl`). -/
def consHead (c : Char) : List (List Char) → List (List Char)
  | [] => [[c]]
  | l :: ls => (c :: l) :: ls

/-- JavaScript `s.split('\n')` on a character list: always returns at least
one part; the final part is the text after the last newline. -/
def splitNl : List Char → List (List Char)
  | [] => [[]]
  | c :: rest => if c = '\n' then [] :: splitNl rest else consHead c (splitNl rest)

/-- All parts except the last (the complete, newline-terminated lines). -/
def initParts : List (List Char) → List (List Char)
  | [] => []
  | [_] => []
  | x :: y :: ys => x :: initParts (y :: ys)

/-- The last part (the trailing fragment after the last newline). -/
def lastPart : List (List Char) → List Char
  | [] => []
  | [x] => x
  | _ :: y :: ys => lastPart (y :: ys)

/-- Append a list to the head part of a partition (how a partition of `b`
changes when newline-free text is prepended to `b`). -/
def glueHead (x : List Char) : List (List Char) → List (List Char)
  | [] => []
  | y :: ys => (x ++ y) :: ys

lemma splitNl_ne_nil : ∀ l : List Char, splitNl l ≠ [] := by
  intro l
  cases l with
  | nil => simp [splitNl]
  | cons c rest =>
    simp only [splitNl]
    split
    · simp
    · cases h : splitNl rest <;> simp [consHead]

lemma glueHead_nil_left (l : List (List Char)) : glueHead [] l = l := by
  cases l <;> simp [glueHead]

lemma initParts_append (X Y : List (List Char)) (h : Y ≠ []) :
    initParts (X ++ Y) = X ++ initParts Y := by
  induction X with
  | nil => rfl
  | cons x X ih =>
    cases hXY : X ++ Y with
    | nil =>
      rcases List.append_eq_nil.mp hXY with ⟨-, h2⟩
      exact absurd h2 h
    | cons z zs =>
      simp only [List.cons_append, hXY, initParts]
      rw [← hXY, ih]

lemma lastPart_append (X Y : List (List Char)) (h : Y ≠ []) :
    lastPart (X ++ Y) = lastPart Y := by
  induction X with
  | nil => rfl
  | cons x X ih =>
    cases hXY : X ++ Y with
    | nil =>
      rcases List.append_eq_nil.mp hXY with ⟨-, h2⟩
      exact absurd h2 h
    | cons z zs =>
      simp only [List.cons_append, hXY, lastPart]
      rw [← hXY, ih]

lemma splitNl_cons (c : Char) (rest : List Char) :
    splitNl (c :: rest) =
      if c = '\n' then [] :: splitNl rest else consHead c (splitNl rest) := rfl

lemma splitNl_append (a b : List Char) :
    splitNl (a ++ b) =
      initParts (splitNl a) ++ glueHead (lastPart (splitNl a)) (splitNl b) := by
  induction a with
  | nil =>
    simp [splitNl, initParts, lastPart, glueHead_nil_left]
  | cons c a ih =>
    rw [List.cons_append, splitNl_cons, splitNl_cons]
    by_cases hc : c = '\n'
    · rw [if_pos hc, if_pos hc, ih]
      cases hsa : splitNl a with
      | nil => exact absurd hsa (splitNl_ne_nil a)
      | cons z zs => simp [initParts, lastPart]
    · rw [if_neg hc, if_neg hc, ih]
      cases hsa : splitNl a with
      | nil => exact absurd hsa (splitNl_ne_nil a)
      | cons z zs =>
        cases zs with
        | nil =>
          cases hsb : splitNl b with
          | nil => exact absurd hsb (splitNl_ne_nil b)
          | cons y ys => simp [initParts, lastPart, glueHead, consHead]
        | cons w ws =>
          simp [initParts, lastPart, consHead]

lemma splitNl_noNl_append (l b : List Char) (h : '\n' ∉ l) :
    splitNl (l ++ b) = glueHead l (splitNl b) := by
  induction l with
  | nil => simp [glueHead_nil_left]
  | cons c l ih =>
    have hc : c ≠ '\n' := fun hcc => h (by simp [hcc])
    have hl : '\n' ∉ l := fun hll => h (by simp [hll])
    rw [List.cons_append, splitNl_cons, if_neg hc, ih hl]
    cases hsb : splitNl b with
    | nil => exact absurd hsb (splitNl_ne_nil b)
    | cons y ys => simp [glueHead, consHead]

lemma noNl_lastPart (l : List Char) : '\n' ∉ lastPart (splitNl l) := by
  induction l with
  | nil => simp [splitNl, lastPart]
  | cons c l ih =>
    rw [splitNl_cons]
    by_cases hc : c = '\n'
    · rw [if_pos hc]
      cases hsl : splitNl l with
      | nil => exact absurd hsl (splitNl_ne_nil l)
      | cons z zs =>
        rw [hsl] at ih
        simpa [lastPart] using ih
    · rw [if_neg hc]
      cases hsl : splitNl l with
      | nil => exact absurd hsl (splitNl_ne_nil l)
      | cons z zs =>
        rw [hsl] at ih
        cases zs with
        | nil =>
          simp only [consHead, lastPart]
          simp only [lastPart] at ih
          intro hmem
          rcases List.mem_cons.mp hmem with h1 | h1
          · exact hc h1.symm
          · exact ih h1
        | cons w ws => simpa [consHead, lastPart] using ih

/-- The read loop of the buffered engine (`useThinkingState.ts` file,
`startStream` lines 86-117 of its `useStreamSSE`): the carry-over buffer is
prefixed to each read, the combined text is split on newlines, all parts but
the last are emitted as complete lines, and the last part becomes the new
buffer. Returns (emitted lines, final buffer). -/
def feedReads : List Char → List (List Char) → List (List Char) × List Char
  | buf, [] => ([], buf)
  | buf, r :: rs =>
    let parts := splitNl (buf ++ r)
    let rest := feedReads (lastPart parts) rs
    (initParts parts ++ rest.1, rest.2)

lemma feedReads_spec :
    ∀ (reads : List (List Char)) (buf : List Char), '\n' ∉ buf →
      feedReads buf reads =
        (initParts (splitNl (buf ++ reads.flatten)),
          lastPart (splitNl (buf ++ reads.flatten))) := by
  intro reads
  induction reads with
  | nil =>
    intro buf hbuf
    have h1 : splitNl buf = [buf] := by
      have h2 := splitNl_noNl_append buf [] hbuf
      rw [List.append_nil] at h2
      rw [h2]
      simp [splitNl, glueHead]
    rw [feedReads]
    simp [h1, initParts, lastPart]
  | cons r rs ih =>
    intro buf hbuf
    rw [feedReads]
    have hbuf' : '\n' ∉ lastPart (splitNl (buf ++ r)) := noNl_lastPart (buf ++ r)
    rw [ih (lastPart (splitNl (buf ++ r))) hbuf']
    have hjoin : buf ++ (r :: rs).flatten = (buf ++ r) ++ rs.flatten := by
      rw [List.flatten_cons, ← List.append_assoc]
    rw [hjoin, splitNl_append (buf ++ r) rs.flatten,
      ← splitNl_noNl_append (lastPart (splitNl (buf ++ r))) rs.flatten hbuf',
      initParts_append _ _ (splitNl_ne_nil _),
      lastPart_append _ _ (splitNl_ne_nil _)]

/-- JavaScript `line.trim()` restricted to ASCII whitespace. -/
def trimChars (l : List Char) : List Char :=
  ((l.dropWhile Char.isWhitespace).reverse.dropWhile Char.isWhitespace).reverse

/-- The six characters of the SSE event marker `data: `. -/
def dataMarker : List Char := "data: ".toList

/-- Per-line processing of the buffered engine (`useThinkingState.ts` file,
loop body lines 100-122 of its `useStreamSSE`): trim, skip blank lines,
strip a leading `data: ` marker, skip the `[DONE]` sentinel (with or without
marker), and hand the remaining payload to the JSON parser. Returns the
payload handed to the parser, or `none` if the line yields nothing. -/
def extractPayload (line : List Char) : Option (List Char) :=
  let trimmed := trimChars line
  if trimmed.isEmpty then none
  else
    let jsonData := if dataMarker.isPrefixOf trimmed then trimmed.drop 6 else trimmed
    if jsonData = "[DONE]".toList ∨ jsonData = "data: [DONE]".toList then none
    else some jsonData

/-- Complete lines produced by the buffered engine over a whole sequence of
network reads (initial buffer empty). -/
def bufferedLines (reads : List (List Char)) : List (List Char) :=
  (feedReads [] reads).1

/-- Payloads the buffered engine hands to the JSON parser over a sequence of
reads. -/
def bufferedPayloads (reads : List (List Char)) : List (List Char) :=
  (bufferedLines reads).filterMap extractPayload

/-- Spec-side description of §4.1/§6: the newline-delimited frames of a wire
stream, taken from the concatenated text — every complete line up to the
last newline, trimmed, unwrapped from `data: `, with blanks and the `[DONE]`
sentinel dropped. The trailing fragment after the last newline is not a
frame. -/
def wireFrames (s : List Char) : List (List Char) :=
  (initParts (splitNl s)).filterMap extractPayload

/-- A full success-path run of the buffered engine: chunks delivered to the
consumer (payloads surviving the JSON parser `parse`) and the number of
completion-callback invocations — the loop exits at reader end and then
calls `onComplete` exactly once (line 125). -/
def bufferedRun (parse : List Char → Option StreamChunk) (reads : List (List Char)) :
    List StreamChunk × Nat :=
  ((bufferedPayloads reads).filterMap parse, 1)

/-- Claim C4 (amended, buffered engine): for every way the wire text is cut
into network reads, the buffered engine hands the parser exactly the
newline-delimited frames of the concatenated stream — the trailing fragment
of each read is carried over in the buffer and never processed as a line. -/
theorem buffered_engine_parses_concatenation (reads : List (List Char)) :
    bufferedPayloads reads = wireFrames reads.flatten := by
  have h := feedReads_spec reads [] (by simp)
  unfold bufferedPayloads bufferedLines wireFrames
  rw [h]
  rfl

/-- Per-read line splitting of the legacy engine (`useStreamSSE.ts` lines
94-95): `chunk.split('\n').filter(line => line.trim())` — no cross-read
buffer, the trailing fragment is treated as a line of its own. -/
def legacyLines (r : List Char) : List (List Char) :=
  (splitNl r).filter fun l => !(trimChars l).isEmpty

/-- Per-line processing of the legacy engine (`useStreamSSE.ts` lines
97-116): only lines starting with `data: ` are considered; `[DONE]` after
the marker stops the whole stream (returning from `startStream`); other
payloads are handed to the parser. Returns (payloads, stopped-at-sentinel). -/
def legacyLinePayloads : List (List Char) → List (List Char) × Bool
  | [] => ([], false)
  | line :: rest =>
    if dataMarker.isPrefixOf line then
      let jsonData := line.drop 6
      if jsonData = "[DONE]".toList then ([], true)
      else
        let out := legacyLinePayloads rest
        (jsonData :: out.1, out.2)
    else legacyLinePayloads rest

/-- Payloads the legacy engine hands to the parser over a sequence of reads
(processing stops when the sentinel is seen). -/
def legacyPayloads : List (List Char) → List (List Char)
  | [] => []
  | r :: rs =>
    let out := legacyLinePayloads (legacyLines r)
    if out.2 then out.1 else out.1 ++ legacyPayloads rs

/-- Claim C4 counterexample: the legacy engine in `useStreamSSE.ts` is not
split-invariant — the same wire bytes `data: hello\n`, delivered in one read
or cut after `da`, hand the parser different frame lists (the cut one loses
the frame), so a frame split across reads is never parsed. -/
theorem legacy_engine_split_loses_frame :
    "da".toList ++ "ta: hello\n".toList = "data: hello\n".toList ∧
    legacyPayloads ["da".toList, "ta: hello\n".toList] ≠
      legacyPayloads ["data: hello\n".toList] := by
  constructor
  · rfl
  · decide

/-- Chunk/completion run of the legacy engine (`useStreamSSE.ts`): per line,
a parsed chunk is delivered via `appendChunk`, which fires the completion
callback whenever the chunk's done flag is set (lines 40-46); the sentinel
fires completion and returns from the whole stream (lines 101-108); nothing
fires at bare reader end (the loop just breaks, lines 90-92 and 117-120).
Returns (delivered chunks, completion count, stopped-at-sentinel). -/
def legacyLineRun (parse : List Char → Option StreamChunk) :
    List (List Char) → List StreamChunk × Nat × Bool
  | [] => ([], 0, false)
  | line :: rest =>
    if dataMarker.isPrefixOf line then
      let jsonData := line.drop 6
      if jsonData = "[DONE]".toList then ([], 1, true)
      else
        match parse jsonData with
        | some c =>
          let out := legacyLineRun parse rest
          (c :: out.1, (if c.done then 1 else 0) + out.2.1, out.2.2)
        | none => legacyLineRun parse rest
    else legacyLineRun parse rest

/-- Full run of the legacy engine over a sequence of reads ending with the
reader signalling end-of-stream. -/
def legacyRun (parse : List Char → Option StreamChunk) :
    List (List Char) → List StreamChunk × Nat × Bool
  | [] => ([], 0, false)
  | r :: rs =>
    let out := legacyLineRun parse (legacyLines r)
    if out.2.2 then out
    else
      let rest := legacyRun parse rs
      (out.1 ++ rest.1, out.2.1 + rest.2.1, rest.2.2)

/-- Claim C5 (amended, buffered engine): on the success path the buffered
engine fires its completion callback exactly once per stream, whatever the
reads contain — and a stream whose entire body is `data: [DONE]\n` delivers
zero chunks to the consumer, for every JSON parser. -/
theorem buffered_completion_once (parse : List Char → Option StreamChunk)
    (reads : List (List Char)) :
    (bufferedRun parse reads).2 = 1 ∧
    (bufferedRun parse ["data: [DONE]\n".toList]).1 = [] := by
  constructor
  · rfl
  · have h : bufferedPayloads ["data: [DONE]\n".toList] = [] := by decide
    show (bufferedPayloads ["data: [DONE]\n".toList]).filterMap parse = []
    rw [h]
    rfl

/-- Claim C5 counterexample: the legacy engine in `useStreamSSE.ts` does not
fire its completion callback when the reader simply signals end of stream —
an empty stream, and a stream whose only frame is a non-sentinel line,
produce zero completion invocations rather than exactly one. -/
theorem legacy_completion_missing :
    (legacyRun (fun _ => none) []).2.1 = 0 ∧
    (legacyRun (fun _ => none) ["data: hello\n".toList]).2.1 = 0 := by
  constructor
  · rfl
  · decide

/-!
Display reconciliation (typewriter) loops. The canonical variant is the
requestAnimationFrame-based `animate` of `src/hooks/useTypingAnimation.ts`
(lines 36-76): a redraw callback measures the elapsed time, reschedules
without advancing below the 60 Hz frame budget, snaps to the target under a
reduced-motion preference, and otherwise reveals
`max(1, floor(speed * dt / 1000))` further characters of the target, never
overshooting. The interval-based variant (`useTypingAnimation` of the
unnamed source part) re-runs its effect whenever its `text` input changes,
and that effect calls `reset()` first, clearing `displayText`.
-/

/-- State of the requestAnimationFrame typewriter: the shown text, the
authoritative target and the `isTyping` flag. -/
structure TypingState where
  display : List Char
  target : List Char
  typing : Bool
deriving DecidableEq

/-- The 60 Hz frame budget of `useTypingAnimation.ts` line 41 (16.67 ms). -/
def frameBudget : ℚ := 1667 / 100

/-- One invocation of the `animate` callback of `useTypingAnimation.ts`
(lines 36-76), with the elapsed time `dt` since the last advancing redraw
and the ambient reduced-motion preference passed explicitly. -/
def animateStep (reduced : Bool) (speed dt : ℚ) (st : TypingState) : TypingState :=
  if dt < frameBudget then st
  else if st.display = st.target then { st with typing := false }
  else if reduced then { display := st.target, target := st.target, typing := false }
  else
    let k : Nat := max 1 (Int.toNat ⌊speed * dt / 1000⌋)
    let nextLen := min (st.display.length + k) st.target.length
    let next := st.target.take nextLen
    { display := next, target := st.target,
      typing := if next = st.target then false else st.typing }

/-- `appendText` of `useTypingAnimation.ts` (lines 87-89): the target is
extended in place, the display is untouched. -/
def extendTarget (ext : List Char) (st : TypingState) : TypingState :=
  { st with target := st.target ++ ext }

-- Helper: a shorter take of the same list is a prefix of a longer take.
lemma take_le_isPrefix (l : List Char) (m n : Nat) (h : m ≤ n) :
    l.take m <+: l.take n := by
  have h1 : (l.take n).take m <+: l.take n := List.take_prefix m (l.take n)
  have h2 : (l.take n).take m = l.take m := by
    rw [List.take_take, Nat.min_eq_left h]
  rw [h2] at h1
  exact h1

/-- Claim C6 (amended, requestAnimationFrame loop): as long as the display
text is a prefix of the target, one `animate` invocation only ever extends
the display text in place (the old display stays a prefix, so its length
never decreases and no restart occurs) and keeps it a prefix of the target;
extending the target leaves the display untouched and still a prefix — the
loop continues from the current display toward the longer target. -/
theorem typing_display_monotone (reduced : Bool) (speed dt : ℚ) (ext : List Char)
    (st : TypingState) (h : st.display <+: st.target) :
    (st.display <+: (animateStep reduced speed dt st).display ∧
      (animateStep reduced speed dt st).display <+:
        (animateStep reduced speed dt st).target ∧
      st.display.length ≤ (animateStep reduced speed dt st).display.length) ∧
    ((extendTarget ext st).display = st.display ∧
      (extendTarget ext st).display <+: (extendTarget ext st).target) := by
  refine ⟨?_, rfl, h.trans (List.prefix_append st.target ext)⟩
  by_cases h1 : dt < frameBudget
  · rw [animateStep, if_pos h1]
    exact ⟨List.prefix_refl _, h, le_refl _⟩
  · by_cases h2 : st.display = st.target
    · rw [animateStep, if_neg h1, if_pos h2]
      exact ⟨List.prefix_refl _, h, le_refl _⟩
    · by_cases h3 : reduced
      · rw [animateStep, if_neg h1, if_neg h2, if_pos h3]
        exact ⟨h, List.prefix_refl _, h.length_le⟩
      · rw [animateStep, if_neg h1, if_neg h2, if_neg h3]
        have hlen : st.display.length ≤ st.target.length := h.length_le
        have hmin : st.display.length ≤
            min (st.display.length + max 1 (Int.toNat ⌊speed * dt / 1000⌋))
              st.target.length :=
          le_min (Nat.le_add_right _ _) hlen
        have hdisp : st.display = st.target.take st.display.length :=
          List.prefix_iff_eq_take.mp h
        have hpre : st.display <+:
            st.target.take
              (min (st.display.length + max 1 (Int.toNat ⌊speed * dt / 1000⌋))
                st.target.length) := by
          have h4 := take_le_isPrefix st.target st.display.length _ hmin
          rw [← hdisp] at h4
          exact h4
        exact ⟨hpre, List.take_prefix _ _, hpre.length_le⟩

/-- The concrete mid-animation state used as the C6 witness input. -/
def c6State : TypingState :=
  { display := "He".toList, target := "Hello".toList, typing := true }

/-- Claim C6 witness: at the concrete state showing `He` of target `Hello`,
an animate invocation extends the display and keeps it a prefix, and
extending the target to `Hello world` leaves the display untouched. -/
theorem typing_display_monotone_witness :
    (c6State.display <+: c6State.target) ∧
    ((c6State.display <+: (animateStep false 30 20 c6State).display ∧
      (animateStep false 30 20 c6State).display <+:
        (animateStep false 30 20 c6State).target ∧
      c6State.display.length ≤ (animateStep false 30 20 c6State).display.length) ∧
    ((extendTarget " world".toList c6State).display = c6State.display ∧
      (extendTarget " world".toList c6State).display <+:
        (extendTarget " world".toList c6State).target)) :=
  ⟨by decide, typing_display_monotone false 30 20 (" world".toList) c6State (by decide)⟩

/-- State of the interval-based typewriter of the unnamed source part:
shown text, typing flag and reveal index. -/
structure IntervalState where
  display : List Char
  typing : Bool
  index : Nat
deriving DecidableEq

/-- The effect of the interval-based `useTypingAnimation` (unnamed part,
lines 67-115) as re-run when its `text` input changes: under reduced motion
the text is shown at once; otherwise `reset()` clears the display and index
before the interval starts revealing from scratch. -/
def intervalTextEffect (reduced : Bool) (text : List Char) (st : IntervalState) :
    IntervalState :=
  if reduced then { display := text, typing := false, index := st.index }
  else if text.isEmpty then { display := [], typing := false, index := 0 }
  else { display := [], typing := true, index := 0 }

/-- Claim C6 counterexample: in the interval-based loop, growing the text
from `Hello` to `Hello world` while `Hel` is displayed re-runs the effect,
which resets the display to the empty string — a restart and a visible
rewind, even though the old display is a prefix of the new target. -/
theorem interval_effect_rewinds_display :
    (intervalTextEffect false ("Hello world".toList)
        { display := "Hel".toList, typing := true, index := 3 }).display = [] ∧
    (intervalTextEffect false ("Hello world".toList)
        { display := "Hel".toList, typing := true, index := 3 }).display.length <
      ("Hel".toList).length ∧
    "Hel".toList <+: "Hello world".toList := by
  decide

/-- Claim C7: under a reduced-motion preference, a reconciliation step that
gets past the frame budget snaps the display to the target in that single
step and marks typing inactive — in the requestAnimationFrame loop for any
state, and in the interval-based effect for any text change. -/
theorem reduced_motion_snaps (speed dt : ℚ) (st : TypingState) (text : List Char)
    (ist : IntervalState) (h : frameBudget ≤ dt) :
    ((animateStep true speed dt st).display = st.target ∧
      (animateStep true speed dt st).typing = false) ∧
    ((intervalTextEffect true text ist).display = text ∧
      (intervalTextEffect true text ist).typing = false) := by
  refine ⟨?_, rfl, rfl⟩
  have h1 : ¬dt < frameBudget := not_lt.mpr h
  by_cases h2 : st.display = st.target
  · rw [animateStep, if_neg h1, if_pos h2]
    exact ⟨h2, rfl⟩
  · rw [animateStep, if_neg h1, if_neg h2]
    exact ⟨rfl, rfl⟩

/-- Claim C7 witness: with a 17 ms frame delta (past the 16.67 ms budget), a
state showing `He` of target `Hello` snaps to `Hello` with typing off, and
the interval effect under reduced motion shows `Hi` at once. -/
theorem reduced_motion_snaps_witness :
    frameBudget ≤ 17 ∧
    (((animateStep true 30 17
        { display := "He".toList, target := "Hello".toList, typing := true }).display =
          ({ display := "He".toList, target := "Hello".toList,
             typing := true } : TypingState).target ∧
      (animateStep true 30 17
        { display := "He".toList, target := "Hello".toList, typing := true }).typing =
          false) ∧
    ((intervalTextEffect true ("Hi".toList)
        { display := [], typing := false, index := 0 }).display = "Hi".toList ∧
      (intervalTextEffect true ("Hi".toList)
        { display := [], typing := false, index := 0 }).typing = false)) :=
  ⟨by norm_num [frameBudget],
    reduced_motion_snaps 30 17
      { display := "He".toList, target := "Hello".toList, typing := true }
      ("Hi".toList) { display := [], typing := false, index := 0 }
      (by norm_num [frameBudget])⟩

/-!
Ownership of the cancellation handle (AbortController). `startStream` of the
buffered engine (`useThinkingState.ts` file, lines 56-64 of its
`useStreamSSE`) first runs `stopStream()` — aborting and dropping any stored
controller — and only then creates the new controller and issues the fetch.
`startStream` of `src/hooks/useStreamSSE.ts` (lines 57-73) overwrites the
stored controller with a fresh one and issues the fetch without aborting the
old controller. The transport-facing events (issuing a request under a
handle, aborting a handle) are recorded in a trace.
-/

/-- A transport event: a request issued under handle `n`, or handle `n`
aborted. -/
inductive StreamEv
  | issue (n : Nat)
  | abort (n : Nat)
deriving DecidableEq

/-- Engine-side handle state: the stored controller (if any), a fresh-handle
counter, and the trace of transport events so far. -/
structure EngineState where
  current : Option Nat
  next : Nat
  trace : List StreamEv
deriving DecidableEq

/-- The idle engine. -/
def engineInit : EngineState := { current := none, next := 0, trace := [] }

/-- `stopStream` (both variants): abort the stored controller, if any, and
drop it; cancelling an idle engine is a no-op. -/
def stopStream (st : EngineState) : EngineState :=
  match st.current with
  | some h => { current := none, next := st.next, trace := st.trace ++ [.abort h] }
  | none => st

/-- `startStream` of the buffered engine: `stopStream()` first, then a new
controller is stored and the request is issued under it. -/
def startStreamManaged (st : EngineState) : EngineState :=
  let st1 := stopStream st
  { current := some st1.next, next := st1.next + 1, trace := st1.trace ++ [.issue st1.next] }

/-- `startStream` of `src/hooks/useStreamSSE.ts`: a new controller replaces
the stored one without any abort, and the request is issued under it. -/
def startStreamLegacy (st : EngineState) : EngineState :=
  { current := some st.next, next := st.next + 1, trace := st.trace ++ [.issue st.next] }

/-- Operations a caller can drive the engine with. -/
inductive EngineOp
  | start
  | cancel
deriving DecidableEq

/-- Run a sequence of operations on the buffered engine from idle. -/
def runManaged (ops : List EngineOp) : EngineState :=
  ops.foldl
    (fun st op => match op with | .start => startStreamManaged st | .cancel => stopStream st)
    engineInit

/-- Run a sequence of operations on the legacy engine from idle. -/
def runLegacy (ops : List EngineOp) : EngineState :=
  ops.foldl
    (fun st op => match op with | .start => startStreamLegacy st | .cancel => stopStream st)
    engineInit

/-- The handles issued and not yet aborted after further events, starting
from an already-active set. -/
def activeFrom (s : List Nat) : List StreamEv → List Nat
  | [] => s
  | .issue n :: rest => activeFrom (s ++ [n]) rest
  | .abort n :: rest => activeFrom (s.filter fun m => m ≠ n) rest

/-- The handles a trace leaves active (issued, never aborted afterwards). -/
def activeHandles (t : List StreamEv) : List Nat := activeFrom [] t

/-- Every `issue` in the trace happens while no previously issued handle is
still active: each new request is only issued after all prior transports
observed their abort. -/
def issuesClean (s : List Nat) : List StreamEv → Bool
  | [] => true
  | .issue n :: rest => s.isEmpty && issuesClean (s ++ [n]) rest
  | .abort n :: rest => issuesClean (s.filter fun m => m ≠ n) rest

lemma activeFrom_append (s : List Nat) (t1 t2 : List StreamEv) :
    activeFrom s (t1 ++ t2) = activeFrom (activeFrom s t1) t2 := by
  induction t1 generalizing s with
  | nil => rfl
  | cons e t1 ih =>
    cases e with
    | issue n => rw [List.cons_append, activeFrom, activeFrom, ih]
    | abort n => rw [List.cons_append, activeFrom, activeFrom, ih]

lemma issuesClean_append (s : List Nat) (t1 t2 : List StreamEv) :
    issuesClean s (t1 ++ t2) =
      (issuesClean s t1 && issuesClean (activeFrom s t1) t2) := by
  induction t1 generalizing s with
  | nil => simp [issuesClean, activeFrom]
  | cons e t1 ih =>
    cases e with
    | issue n =>
      rw [List.cons_append, issuesClean, issuesClean, activeFrom, ih]
      cases s.isEmpty <;> simp
    | abort n =>
      rw [List.cons_append, issuesClean, issuesClean, activeFrom, ih]

/-- The invariant tying the trace to the stored controller. -/
def HandleInv (st : EngineState) : Prop :=
  activeHandles st.trace = st.current.toList ∧ issuesClean [] st.trace = true

lemma handleInv_stopStream (st : EngineState) (h : HandleInv st) :
    HandleInv (stopStream st) := by
  rcases h with ⟨h1, h2⟩
  unfold stopStream
  cases hc : st.current with
  | none => exact ⟨h1, h2⟩
  | some n =>
    constructor
    · show activeFrom [] (st.trace ++ [.abort n]) = ([] : List Nat)
      rw [activeFrom_append]
      show ((activeHandles st.trace).filter fun m => m ≠ n) = []
      rw [h1, hc]
      simp
    · show issuesClean [] (st.trace ++ [.abort n]) = true
      rw [issuesClean_append, h2]
      simp [issuesClean]

lemma stopStream_current (st : EngineState) : (stopStream st).current = none := by
  unfold stopStream
  cases hc : st.current with
  | none => exact hc
  | some n => rfl

lemma handleInv_startManaged (st : EngineState) (h : HandleInv st) :
    HandleInv (startStreamManaged st) := by
  have h1 := handleInv_stopStream st h
  rcases h1 with ⟨ha, hb⟩
  have hcur := stopStream_current st
  constructor
  · show activeFrom [] ((stopStream st).trace ++ [.issue (stopStream st).next]) = _
    rw [activeFrom_append]
    show ((activeHandles (stopStream st).trace) ++ [(stopStream st).next]) = _
    rw [ha, hcur]
    rfl
  · show issuesClean [] ((stopStream st).trace ++ [.issue (stopStream st).next]) = true
    rw [issuesClean_append, hb]
    show (true && issuesClean (activeHandles (stopStream st).trace) _) = true
    rw [ha, hcur]
    simp [issuesClean]

/-- Claim C9 (amended, buffered engine): after any sequence of `startStream`
and `cancel` operations, the set of handles issued and never aborted is
exactly the stored controller (so at most one transport is ever active), and
every request in the trace was issued only after every previously issued
handle had observed its abort. -/
theorem managed_engine_single_handle (ops : List EngineOp) :
    activeHandles (runManaged ops).trace = (runManaged ops).current.toList ∧
    issuesClean [] (runManaged ops).trace = true := by
  have main : ∀ (l : List EngineOp) (st : EngineState), HandleInv st →
      HandleInv (l.foldl
        (fun st op =>
          match op with | .start => startStreamManaged st | .cancel => stopStream st)
        st) := by
    intro l
    induction l with
    | nil => intro st h; exact h
    | cons op l ih =>
      intro st h
      rw [List.foldl_cons]
      cases op with
      | start => exact ih _ (handleInv_startManaged st h)
      | cancel => exact ih _ (handleInv_stopStream st h)
  exact main ops engineInit ⟨rfl, rfl⟩

/-- Claim C9 counterexample: on the legacy engine in `useStreamSSE.ts`, two
consecutive `startStream` calls leave two handles active at once — the
second request is issued while the first transport has never observed an
abort. -/
theorem legacy_engine_two_active_handles :
    activeHandles (runLegacy [EngineOp.start, EngineOp.start]).trace = [0, 1] ∧
    issuesClean [] (runLegacy [EngineOp.start, EngineOp.start]).trace = false := by
  decide
